import Mathlib

/-!
Verification development for the magicinvoke argument-derivation and
skip/cache engine (`magicinvoke/magicinvoke.py`).

The Python code is shallowly embedded as executable Lean definitions:

* The value-resolution cascade of `get_params_from_ctx` /
  `customized_default_decorator` is embedded as `resolveAll` over a
  per-call environment `ResolveEnv`.  Python dicts are modelled as
  association lists (keys unique, first binding wins, matching dict
  semantics), the `fell_through` sentinel as `Option.none`, and the
  per-call memo `cache` dict (`{'derived': {}, ...}`) as explicit state
  threaded through the fold, including its truthiness test
  (`if not cache['derived']`), which re-invokes the callback when the
  cached dict is empty.
* `timestamp_differ` is embedded over a filesystem modelled as
  `String → Option Nat` (`none` = the path does not exist, `some t` =
  exists with modification time `t`).  Python's stable `sorted(key=...)`
  is modelled with `List.insertionSort` on the mtime component; only the
  first/last elements of the sorted lists are consumed, exactly as in
  the source.
* `FileFlagChecker.can_skip` is embedded as `can_skip`; the adjacent
  marker files (`<parent>/.minv/<name>`) are modelled as a map from the
  output path to the marker's stored contents (`markers`), since
  `_file_path_for_path` is a fixed injective renaming of the output
  path.  The sha224 fingerprint `care_about` is carried as an opaque
  string (the digest itself is never inspected, only compared).
* `_skippable` (the orchestrator) is embedded as `magicSkippableCall`
  over a per-call `World` recording the outcome of every external
  effect (load/run/dump); the returned `Bool` records whether the
  wrapped function body was executed.
* `CallInfo.identify` / `CallInfo.persistent_hash` are embedded with
  `_hash_int` abstracted to an arbitrary `h : String → Nat` (the sha224
  digest is not re-implemented; every theorem holds for all `h`).

Reason strings are abridged (Python's `repr` punctuation is dropped);
no claim depends on their exact text.
-/

set_option maxHeartbeats 1000000
set_option maxRecDepth 4000

namespace MagicInvoke

/-! ## Value resolver (`get_params_from_ctx` → `customized_default_decorator`) -/

/-- A declared parameter default: `empty` = no default (`param.empty`),
`plain v` = a non-callable default value, `ofCtx v` = a callable default
(which the code invokes as `default(ctx)`; `v` is the value it returns). -/
inductive Dflt (α : Type) where
  | empty : Dflt α
  | plain (v : α) : Dflt α
  | ofCtx (v : α) : Dflt α
  deriving DecidableEq

/-- One entry of `signature(func).parameters`, in declaration order. -/
structure SigParam (α : Type) where
  name : String
  dflt : Dflt α
  deriving DecidableEq

/-- `param.default is param.empty` -/
def Dflt.isEmptyD {α : Type} : Dflt α → Bool
  | .empty => true
  | _ => false

/-- The per-call sources the cascade draws from.
`directly_passed` models the dict returned by `get_directly_passed`
(step 1; `.pop` behaves as lookup since each parameter is consulted
exactly once); `ctx_argdict` models `traverse_path_for_argdict`
composed with `.get` (step 2; the traversal is pure so its memoization
is observationally identity); `derive_kwargs` is `none` when no
callback was supplied, `some m` when the callback is supplied and
returns the mapping `m` (the callback itself is modelled as pure). -/
structure ResolveEnv (α : Type) where
  directly_passed : String → Option α
  ctx_argdict : String → Option α
  derive_kwargs : Option (List (String × α))

/-- Association-list lookup, first binding wins (= Python dict `.get`). -/
def lookupName {α : Type} (p : String) : List (String × α) → Option α
  | [] => none
  | (q, v) :: rest => if q = p then some v else lookupName p rest

/-- `param_name_to_callable_default` applied at `param_name`:
`some` exactly for parameters whose declared default is callable. -/
def callableDefaultOf {α : Type} (sig : List (SigParam α)) (p : String) : Option α :=
  match sig.find? (fun pr => pr.name = p) with
  | some pr =>
    match pr.dflt with
    | .ofCtx v => some v
    | _ => none
  | none => none

/-- `call_derive_kwargs_or_error`, with the `cache['derived']` memo made
explicit.  Returns (value looked up, new memo state, number of times the
user callback was invoked during this step).  Mirrors
`if not cache['derived']: cache['derived'] = derive_kwargs(ctx)`:
the callback is (re-)invoked whenever the memo dict is empty. -/
def deriveStep {α : Type} (dk : Option (List (String × α))) (cache : List (String × α))
    (p : String) : Option α × List (String × α) × Nat :=
  match dk with
  | none => (none, cache, 0)
  | some m =>
    let dict := if cache.isEmpty then m else cache
    let n := if cache.isEmpty then 1 else 0
    (lookupName p dict, dict, n)

/-- The cascade for a single parameter, in source order:
`get_directly_passed_arg`, `get_from_ctx`,
`call_derive_kwargs_or_error`, `call_callable_default`;
the first step that does not fall through wins and later steps are not
evaluated. -/
def resolveParam {α : Type} (sig : List (SigParam α)) (env : ResolveEnv α)
    (cache : List (String × α)) (p : String) : Option α × List (String × α) × Nat :=
  match env.directly_passed p with
  | some v => (some v, cache, 0)
  | none =>
    match env.ctx_argdict p with
    | some v => (some v, cache, 0)
    | none =>
      match deriveStep env.derive_kwargs cache p with
      | (some v, cache2, n) => (some v, cache2, n)
      | (none, cache2, n) =>
        match callableDefaultOf sig p with
        | some v => (some v, cache2, n)
        | none => (none, cache2, n)

/-- The `for param_name in expecting` loop: builds `args_passing` (the
parameters that resolved, with their values, in declaration order) while
threading the derive-callback memo; also counts total callback
invocations. -/
def resolveList {α : Type} (sig : List (SigParam α)) (env : ResolveEnv α) :
    List String → List (String × α) → List (String × α) × Nat
  | [], _ => ([], 0)
  | p :: rest, cache =>
    match resolveParam sig env cache p with
    | (some v, cache2, n) =>
      ((p, v) :: (resolveList sig env rest cache2).1, n + (resolveList sig env rest cache2).2)
    | (none, cache2, n) =>
      ((resolveList sig env rest cache2).1, n + (resolveList sig env rest cache2).2)

/-- One full resolution pass of `customized_default_decorator` (the memo
starts empty on every call: it is allocated inside the wrapper, never
shared across calls).  First component: `args_passing`; second: how many
times `derive_kwargs` was invoked during this call. -/
def resolveAll {α : Type} (sig : List (SigParam α)) (env : ResolveEnv α) :
    List (String × α) × Nat :=
  resolveList sig env (sig.map (fun pr => pr.name)) []

/-- What the derivation callback contributes for parameter `p`
(`none` both when no callback was supplied and when its mapping lacks
`p`). -/
def deriveLookupSpec {α : Type} (dk : Option (List (String × α))) (p : String) : Option α :=
  match dk with
  | some m => lookupName p m
  | none => none

/-- Specification-side restatement of the cascade for one parameter,
first match wins: directly-passed, else configuration, else derivation
callback, else callable default.  `resolveAll` is proved to refine
this. -/
def cascadeSpec {α : Type} (sig : List (SigParam α)) (env : ResolveEnv α)
    (p : String) : Option α :=
  match env.directly_passed p with
  | some v => some v
  | none =>
    match env.ctx_argdict p with
    | some v => some v
    | none =>
      match deriveLookupSpec env.derive_kwargs p with
      | some v => some v
      | none => callableDefaultOf sig p

/-- The missing-parameter scan after the cascade: parameters not bound in
`args_passing` whose declared default `is param.empty`, in declaration
order. -/
def missingOf {α : Type} (sig : List (SigParam α)) (env : ResolveEnv α) : List String :=
  let assigned := (resolveAll sig env).1.map (fun x => x.1)
  (sig.filter (fun pr => !(assigned.contains pr.name) && pr.dflt.isEmptyD)).map
    (fun pr => pr.name)

/-- The `TypeError` message: `"<name> did not receive required positional
arguments: a, b, c"` (quoting punctuation dropped). -/
def missingMsg (funcName : String) (missing : List String) : String :=
  funcName ++ " did not receive required positional arguments: " ++
    String.intercalate ", " missing

/-- End of `customized_default_decorator` before the wrapped call:
either the resolved `args_passing`, or the raised `TypeError` message. -/
def resolveOutcome {α : Type} (sig : List (SigParam α)) (env : ResolveEnv α)
    (funcName : String) : Except String (List (String × α)) :=
  let missing := missingOf sig env
  if missing.isEmpty then Except.ok (resolveAll sig env).1
  else Except.error (missingMsg funcName missing)

/-! ## Parameter classifier (`CallInfo._look_for_params_with`) -/

/-- The sentinel marker annotations `InputPath` / `OutputPath`. -/
inductive Ann where
  | inputMarker
  | outputMarker
  deriving DecidableEq

/-- A parameter as the classifier sees it: its name and the first
element of its (possibly list-shaped) annotation, `none` if
unannotated. -/
structure PyParam where
  name : String
  ann : Option Ann
  deriving DecidableEq

/-- The context-parameter names hardcoded in `_look_for_params_with`. -/
def namesForCtxClassifier : List String := ["ctx", "c"]

/-- Does the character list `s` start with `w`? -/
def charsStartWith : List Char → List Char → Bool
  | [], _ => true
  | _ :: _, [] => false
  | c :: cs, d :: ds => c == d && charsStartWith cs ds

/-- Does the character list `s` contain `w` as a contiguous run? -/
def charsContain : List Char → List Char → Bool
  | [], w => w.isEmpty
  | c :: t, w => charsStartWith w (c :: t) || charsContain t w

/-- Python `w in s` substring test. -/
def strContains (s w : String) : Bool := charsContain s.data w.data

/-- Python `s.startswith(w)`. -/
def strStartsWith (s w : String) : Bool := charsStartWith w.data s.data

/-- Python `s.lower()`. -/
def lowerStr (s : String) : String := String.mk (s.data.map Char.toLower)

/-- The classifier predicate
`annotation and annotation is type_annotation or
 any(w in param_name.lower() for w in words_to_match)
 and not param_name.startswith("_")`
(Python precedence: `(A and B) or (C and D)`). -/
def matchesWith (ta : Ann) (words : List String) (p : PyParam) : Bool :=
  (p.ann = some ta) ||
    (words.any (fun w => strContains (lowerStr p.name) w) && !(strStartsWith p.name "_"))

/-- `_look_for_params_with`: walks the parameters in order, skipping the
context names, collecting matches not already claimed by an earlier
pass; returns (updated `params_that_are_filenames`, matched names). -/
def lookForParamsWith (ta : Ann) (words : List String) :
    List PyParam → List String → List String × List String
  | [], already => (already, [])
  | p :: rest, already =>
    if p.name ∈ namesForCtxClassifier then lookForParamsWith ta words rest already
    else if matchesWith ta words p && !(already.contains p.name) then
      let r := lookForParamsWith ta words rest (already ++ [p.name])
      (r.1, p.name :: r.2)
    else lookForParamsWith ta words rest already

/-- `CallInfo.output_params` (`OutputPath`, words `["output"]`; runs first). -/
def outputParams (ps : List PyParam) : List String :=
  (lookForParamsWith .outputMarker ["output"] ps []).2

/-- `CallInfo.input_params` (`InputPath`, words `["input", "path", "file"]`;
runs second, sharing `params_that_are_filenames` with the output pass). -/
def inputParams (ps : List PyParam) : List String :=
  (lookForParamsWith .inputMarker ["input", "path", "file"] ps
    (lookForParamsWith .outputMarker ["output"] ps []).1).2

/-- The signature rewrite performed by the `skippable` decorator: the
original parameters plus the keyword-only flags `_clean` and
`_force_run` (assuming, as the code does, that no declared parameter
already bears those names). -/
def skippableParams (ps : List PyParam) : List String :=
  ps.map (fun p => p.name) ++ ["_clean", "_force_run"]

/-! ## Staleness checker (`timestamp_differ`) -/

/-- `Path(p).stat().st_mtime` (only evaluated on existing paths). -/
def mtOf (fs : String → Option Nat) (p : String) : Nat := (fs p).getD 0

instance : DecidableRel (fun a b : String × Nat => a.2 ≤ b.2) :=
  fun a b => Nat.decLe a.2 b.2

instance : IsTotal (String × Nat) (fun a b => a.2 ≤ b.2) :=
  ⟨fun a b => Nat.le_total a.2 b.2⟩

instance : IsTrans (String × Nat) (fun a b => a.2 ≤ b.2) :=
  ⟨fun _ _ _ hab hbc => Nat.le_trans hab hbc⟩

/-- `sort_by_timestamps`: pair each path with its mtime and sort
(stably) by mtime. -/
def sortByTimestamps (fs : String → Option Nat) (l : List String) : List (String × Nat) :=
  List.insertionSort (fun a b => a.2 ≤ b.2) (l.map (fun p => (p, mtOf fs p)))

/-- `timestamp_differ(input_filenames, output_filenames)`:
`(skippable?, reason)` over the filesystem `fs`. -/
def timestamp_differ (fs : String → Option Nat)
    (input_filenames output_filenames : List String) : Bool × String :=
  if output_filenames.isEmpty then
    (false, "has_inputs:" ++ toString (!input_filenames.isEmpty) ++ " has_outputs:false")
  else
    match (input_filenames ++ output_filenames).find? (fun p => (fs p).isNone) with
    | some p => (false, p ++ " missing")
    | none =>
      if input_filenames.isEmpty then
        (true, "outputs exist, but no inputs required")
      else
        let oldest_output := (sortByTimestamps fs output_filenames).headD ("", 0)
        let youngest_input := (sortByTimestamps fs input_filenames).getLastD ("", 0)
        (decide (youngest_input.2 < oldest_output.2),
         "youngest_input=" ++ youngest_input.1 ++ " oldest_output=" ++ oldest_output.1)

/-! ## Flag checker (`FileFlagChecker`) -/

/-- The `SkipResult` namedtuple. -/
structure SkipResult where
  skippable : Bool
  reason : String
  deriving DecidableEq

/-- The `for output_path in ci.output_paths` loop of `can_skip`:
a missing output returns immediately; a present marker whose stored
fingerprint differs from `care_about` records this path as
`failed_path` (overwriting any earlier one) and the loop continues; an
absent marker records nothing. -/
def canSkipGo (fs : String → Option Nat) (markers : String → Option String)
    (careAbout : String) : List String → Option String → SkipResult
  | [], failed =>
    { skippable := failed.isNone,
      reason := if failed.isNone then "no files were last generated with different flags"
                else "a file was last generated with different flags" }
  | p :: rest, failed =>
    if (fs p).isNone then
      { skippable := false, reason := "output " ++ p ++ " does not exist yet" }
    else
      match markers p with
      | some s =>
        if s = careAbout then canSkipGo fs markers careAbout rest failed
        else canSkipGo fs markers careAbout rest (some p)
      | none => canSkipGo fs markers careAbout rest failed

/-- `FileFlagChecker.can_skip`, applied after `last_result_path` has been
appended to `ci.output_paths` (the caller passes the extended list).
`careAbout` is the sha224 fingerprint of the call string. -/
def can_skip (fs : String → Option Nat) (markers : String → Option String)
    (careAbout : String) (flags : List (String × String))
    (outputPaths : List String) : SkipResult :=
  if flags.isEmpty then { skippable := true, reason := "has no flags" }
  else canSkipGo fs markers careAbout outputPaths none

/-! ## Orchestrator (`_skippable`) -/

/-- The exception taxonomy relevant to the orchestrator:
`saveReturnvalueError` is `magicinvoke.exceptions.SaveReturnvalueError`,
a type distinct from the generic pickling error it wraps. -/
inductive PyError where
  | typeError (msg : String)
  | derivingArgsError (msg : String)
  | pickleError (msg : String)
  | saveReturnvalueError (msg : String)
  deriving DecidableEq

/-- The `pickle.dump` part of `FileFlagChecker.after_run`:
`except Exception as e: raise SaveReturnvalueError(*e.args)`.
(The marker writes that precede the dump do not affect any claim and
are not tracked.) -/
def after_run_save (dumpResult : Except String Unit) : Except PyError Unit :=
  match dumpResult with
  | .ok _ => .ok ()
  | .error msg => .error (.saveReturnvalueError msg)

/-- Everything one invocation of a `skippable`-wrapped callable can
observe of the outside world, recorded before the call: the filesystem
(`fs`), the marker store, the bound flags, the coerced input/output
path lists of the declared parameters, the cache paths and fingerprint,
and the outcomes of `pickle.load` (`loadResult`), of the wrapped
function body (`runResult`) and of `pickle.dump` (`dumpResult`). -/
structure World (ρ : Type) where
  fs : String → Option Nat
  markers : String → Option String
  flags : List (String × String)
  inputPaths : List String
  outputPaths : List String
  lastResultPath : String
  careAbout : String
  loadResult : Except String ρ
  runResult : ρ
  dumpResult : Except String Unit

/-- `ci.output_paths` after `can_skip` appended `last_result_path`. -/
def fullOutputs {ρ : Type} (w : World ρ) : List String :=
  w.outputPaths ++ [w.lastResultPath]

/-- What a call to the wrapped function produced: the clean summary, a
value (loaded from cache or freshly computed), or a raised error. -/
inductive Outcome (ρ : Type) where
  | cleaned (n : Nat)
  | value (v : ρ)
  | raised (e : PyError)
  deriving DecidableEq

/-- The combined verdict of `_skippable`: the first of
(`func.checker.can_skip(ci)`, `_timestamp_differ(ci)`) that is not
skippable, else the timestamp verdict. -/
def combinedVerdict {ρ : Type} (w : World ρ) : SkipResult :=
  let checkResult := can_skip w.fs w.markers w.careAbout w.flags (fullOutputs w)
  let fsr := timestamp_differ w.fs w.inputPaths (fullOutputs w)
  let fsResult : SkipResult := { skippable := fsr.1, reason := fsr.2 }
  if !checkResult.skippable then checkResult
  else if !fsResult.skippable then fsResult
  else fsResult

/-- `ci.result = func(*args, **kwargs); func.checker.after_run(ci)`.
Second component: the wrapped function body executed. -/
def runAndPersist {ρ : Type} (w : World ρ) : Outcome ρ × Bool :=
  match after_run_save w.dumpResult with
  | .ok _ => (.value w.runResult, true)
  | .error e => (.raised e, true)

/-- The skip-or-run tail of `_skippable`: when the combined verdict is
skippable and no force-run was requested, try to load the pickled
return value, and on any load exception fall through to the real
call; otherwise run and persist. -/
def skipOrRun {ρ : Type} (w : World ρ) (forceRun : Bool) : Outcome ρ × Bool :=
  if (combinedVerdict w).skippable && !forceRun then
    match w.loadResult with
    | .ok v => (.value v, false)
    | .error _ => runAndPersist w
  else runAndPersist w

/-- The `clean` branch: every declared output path is removed, and
`FileFlagChecker.clean` removes the markers and the whole
`CachePath(".minv", name)` tree (hence `last_result_path` and a
subsequent load failure). -/
def cleanWorld {ρ : Type} (w : World ρ) : World ρ :=
  { w with
    fs := fun p =>
      if w.outputPaths.contains p || p = w.lastResultPath then none else w.fs p,
    markers := fun p =>
      if w.outputPaths.contains p || p = w.lastResultPath then none else w.markers p,
    loadResult := Except.error "cache file removed" }

/-- One invocation of the `_skippable` wrapper.  Returns the outcome and
whether the wrapped function body was executed. -/
def magicSkippableCall {ρ : Type} (w : World ρ) (forceRun clean : Bool) :
    Outcome ρ × Bool :=
  if clean then
    if !forceRun then (.cleaned w.outputPaths.length, false)
    else skipOrRun (cleanWorld w) forceRun
  else skipOrRun w forceRun

/-! ## Call identity (`CallInfo.identify` / `persistent_hash`) -/

/-- The identity-relevant projection of a bound `CallInfo`: qualified
name, coerced input/output path strings, the `str()` of each flag pair
(pre-rendered), and the hash of the compiled code. -/
structure CallInfoId where
  name : String
  inputPaths : List String
  outputPaths : List String
  flagStrs : List String
  codeHash : String
  deriving DecidableEq

/-- `CallInfo.identify`: name, then the stringified inputs, outputs and
flags, then the code hash. -/
def identify (ci : CallInfoId) : List String :=
  ci.name :: (ci.inputPaths ++ ci.outputPaths ++ ci.flagStrs) ++ [ci.codeHash]

/-- `CallInfo.persistent_hash`, with `_hash_int` abstracted as `h`:
the arithmetic sum of the element hashes. -/
def persistent_hash (h : String → Nat) (ci : CallInfoId) : Nat :=
  ((identify ci).map h).sum

/-- `CachePath(".minv", ci.name, str(ci.persistent_hash()))`: the path
holding the pickled return value. -/
def lastResultPathOf (h : String → Nat) (ci : CallInfoId) : String :=
  ".minv/" ++ ci.name ++ "/" ++ toString (persistent_hash h ci)

/-! ## Concrete instances used by witnesses and counterexamples -/

/-- Signature of the resolution-precedence example of the spec:
`ctx`, `x` with a callable default returning 99. -/
def sigW1 : List (SigParam Nat) := [⟨"ctx", .empty⟩, ⟨"x", .ofCtx 99⟩]

/-- Environment for the C1 witness: `x=2` passed directly, `x=1` in the
configuration, a derivation callback offering `x=3`. -/
def envW1 : ResolveEnv Nat :=
  { directly_passed := fun n => if n = "ctx" then some 0 else if n = "x" then some 2 else none,
    ctx_argdict := fun n => if n = "x" then some 1 else none,
    derive_kwargs := some [("x", 3)] }

/-- C1 witness environment with no directly-passed `x`: the
configuration value must win over the callable default. -/
def envW1b : ResolveEnv Nat :=
  { directly_passed := fun n => if n = "ctx" then some 0 else none,
    ctx_argdict := fun n => if n = "x" then some 1 else none,
    derive_kwargs := none }

/-- C1 witness environment with neither a directly-passed `x` nor a
configuration value: the callable default must be used. -/
def envW1c : ResolveEnv Nat :=
  { directly_passed := fun n => if n = "ctx" then some 0 else none,
    ctx_argdict := fun _ => none,
    derive_kwargs := none }

/-- Filesystem for the C2 witness: input older than output. -/
def fsW2 : String → Option Nat :=
  fun p => if p = "in.txt" then some 1 else if p = "out.txt" then some 2 else none

/-- Signature for the C5 witness: required `a`, `c`; defaulted `b`. -/
def sigW5 : List (SigParam Nat) :=
  [⟨"ctx", .empty⟩, ⟨"a", .empty⟩, ⟨"b", .plain 5⟩, ⟨"c", .empty⟩]

/-- Environment for the C5 witness: only the context is passed. -/
def envW5 : ResolveEnv Nat :=
  { directly_passed := fun n => if n = "ctx" then some 0 else none,
    ctx_argdict := fun _ => none,
    derive_kwargs := none }

/-- Signature for the C9 development: two parameters with plain
defaults, so the cascade consults the derivation callback for both. -/
def sigC9 : List (SigParam Nat) := [⟨"a", .plain 1⟩, ⟨"b", .plain 2⟩]

/-- C9 counterexample environment: the derivation callback returns an
empty mapping, so the falsy-memo test re-invokes it per parameter. -/
def envC9 : ResolveEnv Nat :=
  { directly_passed := fun _ => none,
    ctx_argdict := fun _ => none,
    derive_kwargs := some [] }

/-- C9 witness environment: the callback returns a non-empty mapping. -/
def envC9w : ResolveEnv Nat :=
  { directly_passed := fun _ => none,
    ctx_argdict := fun _ => none,
    derive_kwargs := some [("a", 7)] }

/-- C3 counterexample world: zero declared output parameters, no inputs,
no flags; the pickled-result cache file `lr` exists and loads as 42. -/
def w3 : World Nat :=
  { fs := fun p => if p = "lr" then some 0 else none,
    markers := fun _ => none,
    flags := [],
    inputPaths := [],
    outputPaths := [],
    lastResultPath := "lr",
    careAbout := "fp",
    loadResult := Except.ok 42,
    runResult := 7,
    dumpResult := Except.ok () }

/-- C4 counterexample stores: output `o` exists but has no marker. -/
def fs4 : String → Option Nat := fun p => if p = "o" then some 0 else none

def mk4 : String → Option String := fun _ => none

/-- C4 witness stores: output `o` exists with an agreeing marker. -/
def mk4w : String → Option String := fun p => if p = "o" then some "fp" else none

/-- C6 witness world: verdict is skippable but the cached pickle is
corrupt; the real body returns 7 and the save succeeds. -/
def wC6 : World Nat :=
  { fs := fun p => if p = "lr" then some 0 else none,
    markers := fun _ => none,
    flags := [],
    inputPaths := [],
    outputPaths := [],
    lastResultPath := "lr",
    careAbout := "fp",
    loadResult := Except.error "corrupt pickle",
    runResult := 7,
    dumpResult := Except.ok () }

/-- C7 witness world: the return value cannot be pickled. -/
def wC7 : World Nat :=
  { fs := fun _ => none,
    markers := fun _ => none,
    flags := [],
    inputPaths := [],
    outputPaths := ["o"],
    lastResultPath := "lr",
    careAbout := "fp",
    loadResult := Except.error "unused",
    runResult := 9,
    dumpResult := Except.error "cannot pickle lambda" }

/-- C8 counterexample parameters: a context and one behavior flag, no
output-classified parameter. -/
def psC8 : List PyParam := [⟨"ctx", none⟩, ⟨"x", none⟩]

/-- C10 witness call identities: the same two path strings with their
input and output roles swapped. -/
def ciA : CallInfoId :=
  { name := "m.f", inputPaths := ["a.txt"], outputPaths := ["b.txt"],
    flagStrs := ["(flag, True)"], codeHash := "ch" }

def ciB : CallInfoId :=
  { name := "m.f", inputPaths := ["b.txt"], outputPaths := ["a.txt"],
    flagStrs := ["(flag, True)"], codeHash := "ch" }

/-! ## Resolver lemmas -/

theorem lookupName_eq_none {α : Type} :
    ∀ (l : List (String × α)) (q : String), (∀ v, (q, v) ∉ l) → lookupName q l = none := by
  intro l q
  induction l with
  | nil => intro _; rfl
  | cons a t ih =>
    intro hq
    obtain ⟨a1, a2⟩ := a
    by_cases h : a1 = q
    · subst h
      exact absurd (List.mem_cons_self _ _) (hq a2)
    · simp only [lookupName, if_neg h]
      exact ih (fun v hv => hq v (List.mem_cons_of_mem _ hv))

theorem contains_keys_eq_isSome_lookupName {α : Type} :
    ∀ (l : List (String × α)) (q : String),
      (l.map (fun x => x.1)).contains q = (lookupName q l).isSome := by
  intro l q
  induction l with
  | nil => rfl
  | cons a t ih =>
    obtain ⟨a1, a2⟩ := a
    by_cases h : a1 = q
    · subst h
      simp [lookupName]
    · simp only [List.map_cons, List.contains_cons, lookupName, if_neg h]
      rw [← ih]
      have : (q == a1) = false := by
        simp [Ne.symm h]
      simp [this]

/-- The value component of `resolveParam` is the pure per-parameter
cascade `cascadeSpec`, and the per-call memo invariant (the memo is
either still empty or exactly the callback's mapping) is preserved. -/
theorem resolveParam_spec {α : Type} (sig : List (SigParam α)) (env : ResolveEnv α)
    (cache : List (String × α)) (p : String)
    (hinv : cache = [] ∨ env.derive_kwargs = some cache) :
    (resolveParam sig env cache p).1 = cascadeSpec sig env p ∧
    ((resolveParam sig env cache p).2.1 = [] ∨
      env.derive_kwargs = some (resolveParam sig env cache p).2.1) := by
  rcases hinv with rfl | hdkc
  · cases hdp : env.directly_passed p with
    | some v => simp [resolveParam, cascadeSpec, hdp]
    | none =>
      cases hctx : env.ctx_argdict p with
      | some v => simp [resolveParam, cascadeSpec, hdp, hctx]
      | none =>
        cases hdk : env.derive_kwargs with
        | none =>
          cases hcd : callableDefaultOf sig p <;>
            simp [resolveParam, cascadeSpec, deriveStep, deriveLookupSpec, hdp, hctx, hdk, hcd]
        | some m =>
          cases hlk : lookupName p m <;> cases hcd : callableDefaultOf sig p <;>
            simp [resolveParam, cascadeSpec, deriveStep, deriveLookupSpec,
              hdp, hctx, hdk, hcd, hlk]
  · cases hdp : env.directly_passed p with
    | some v => simp [resolveParam, cascadeSpec, hdp, hdkc]
    | none =>
      cases hctx : env.ctx_argdict p with
      | some v => simp [resolveParam, cascadeSpec, hdp, hctx, hdkc]
      | none =>
        cases hlk : lookupName p cache <;> cases hcd : callableDefaultOf sig p <;>
          simp [resolveParam, cascadeSpec, deriveStep, deriveLookupSpec,
            hdp, hctx, hdkc, hcd, hlk, ite_self]

theorem resolveList_keys {α : Type} (sig : List (SigParam α)) (env : ResolveEnv α) :
    ∀ (ps : List String) (cache : List (String × α)) (q : String) (v : α),
      (q, v) ∈ (resolveList sig env ps cache).1 → q ∈ ps := by
  intro ps
  induction ps with
  | nil =>
    intro cache q v h
    simp [resolveList] at h
  | cons p rest ih =>
    intro cache q v h
    rcases hrp : resolveParam sig env cache p with ⟨r, cache2, n⟩
    cases r with
    | some v2 =>
      simp only [resolveList, hrp] at h
      rcases List.mem_cons.mp h with h1 | h1
      · injection h1 with h1a h1b
        exact List.mem_cons.mpr (Or.inl h1a)
      · exact List.mem_cons_of_mem _ (ih cache2 q v h1)
    | none =>
      simp only [resolveList, hrp] at h
      exact List.mem_cons_of_mem _ (ih cache2 q v h)

/-- Refinement of the cascade: for distinct parameter names, the binding
that the stateful fold `resolveList` produces for each parameter is the
pure cascade value. -/
theorem resolveList_lookup {α : Type} (sig : List (SigParam α)) (env : ResolveEnv α) :
    ∀ (ps : List String) (cache : List (String × α)),
      (cache = [] ∨ env.derive_kwargs = some cache) → ps.Nodup →
      ∀ p ∈ ps, lookupName p (resolveList sig env ps cache).1 = cascadeSpec sig env p := by
  intro ps
  induction ps with
  | nil =>
    intro cache _ _ p hp
    cases hp
  | cons p rest ih =>
    intro cache hinv hnd q hq
    obtain ⟨hval, hinv2⟩ := resolveParam_spec sig env cache p hinv
    have hpnotin : p ∉ rest := (List.nodup_cons.mp hnd).1
    have hndrest : rest.Nodup := (List.nodup_cons.mp hnd).2
    rcases hrp : resolveParam sig env cache p with ⟨r, cache2, n⟩
    rw [hrp] at hval hinv2
    replace hval : r = cascadeSpec sig env p := hval
    replace hinv2 : cache2 = [] ∨ env.derive_kwargs = some cache2 := hinv2
    rcases List.mem_cons.mp hq with rfl | hq2
    · cases r with
      | some v =>
        simp only [resolveList, hrp]
        simp only [lookupName, if_pos rfl]
        exact hval
      | none =>
        simp only [resolveList, hrp]
        rw [← hval]
        exact lookupName_eq_none _ q
          (fun v hv => hpnotin (resolveList_keys sig env rest cache2 q v hv))
    · have hqp : q ≠ p := fun h => hpnotin (h ▸ hq2)
      have htail := ih cache2 hinv2 hndrest q hq2
      cases r with
      | some v =>
        simp only [resolveList, hrp]
        simp only [lookupName]
        rw [if_neg (Ne.symm hqp)]
        exact htail
      | none =>
        simp only [resolveList, hrp]
        exact htail

/-- C1: for every wrapped callable and every declared parameter, the
resolver assigns the parameter the value of the first source in the
fixed order (directly passed, configuration lookup, derivation
callback, callable default) that yields one: the binding produced by
the stateful resolution pass equals the prioritized `orElse` chain
`cascadeSpec`, so a value from an earlier source always wins over any
later source. -/
theorem c1_resolution_cascade (α : Type) (sig : List (SigParam α)) (env : ResolveEnv α)
    (hnd : (sig.map (fun pr => pr.name)).Nodup) :
    ∀ p ∈ sig.map (fun pr => pr.name),
      lookupName p (resolveAll sig env).1 = cascadeSpec sig env p :=
  fun p hp => resolveList_lookup sig env _ [] (Or.inl rfl) hnd p hp

/-- Witness for C1 at the spec's concrete precedence example
(`x` passed directly as 2, configuration 1, derivation 3, callable
default 99): directly-passed wins; without a direct value the
configuration wins; with neither, the callable default is used. -/
theorem c1_witness :
    (lookupName "x" (resolveAll sigW1 envW1).1 = cascadeSpec sigW1 envW1 "x" ∧
      lookupName "x" (resolveAll sigW1 envW1).1 = some 2) ∧
    lookupName "x" (resolveAll sigW1 envW1b).1 = some 1 ∧
    lookupName "x" (resolveAll sigW1 envW1c).1 = some 99 :=
  ⟨⟨c1_resolution_cascade Nat sigW1 envW1 (by decide) "x" (by decide), by decide⟩,
    by decide, by decide⟩

/-! ## Derivation-callback invocation counting (C9) -/

theorem resolveParam_count_none {α : Type} (sig : List (SigParam α)) (env : ResolveEnv α)
    (cache : List (String × α)) (p : String) (hdk : env.derive_kwargs = none) :
    (resolveParam sig env cache p).2.2 = 0 ∧ (resolveParam sig env cache p).2.1 = cache := by
  cases hdp : env.directly_passed p with
  | some v => simp [resolveParam, hdp]
  | none =>
    cases hctx : env.ctx_argdict p with
    | some v => simp [resolveParam, hdp, hctx]
    | none =>
      cases hcd : callableDefaultOf sig p <;>
        simp [resolveParam, deriveStep, hdp, hctx, hdk, hcd]

theorem resolveList_count_none {α : Type} (sig : List (SigParam α)) (env : ResolveEnv α)
    (hdk : env.derive_kwargs = none) :
    ∀ (ps : List String) (cache : List (String × α)), (resolveList sig env ps cache).2 = 0 := by
  intro ps
  induction ps with
  | nil => intro cache; simp [resolveList]
  | cons p rest ih =>
    intro cache
    obtain ⟨h1, h2⟩ := resolveParam_count_none sig env cache p hdk
    rcases hrp : resolveParam sig env cache p with ⟨r, cache2, n⟩
    rw [hrp] at h1 h2
    replace h1 : n = 0 := h1
    cases r <;> simp only [resolveList, hrp] <;> rw [h1, ih cache2]

theorem resolveParam_count_cached {α : Type} (sig : List (SigParam α)) (env : ResolveEnv α)
    (cache : List (String × α)) (p : String)
    (hdkc : env.derive_kwargs = some cache) (hne : cache ≠ []) :
    (resolveParam sig env cache p).2.2 = 0 ∧ (resolveParam sig env cache p).2.1 = cache := by
  have hie : cache.isEmpty = false := by
    cases cache with
    | nil => exact absurd rfl hne
    | cons a t => rfl
  cases hdp : env.directly_passed p with
  | some v => simp [resolveParam, hdp]
  | none =>
    cases hctx : env.ctx_argdict p with
    | some v => simp [resolveParam, hdp, hctx]
    | none =>
      cases hlk : lookupName p cache <;> cases hcd : callableDefaultOf sig p <;>
        simp [resolveParam, deriveStep, hdp, hctx, hdkc, hcd, hlk, hie]

theorem resolveList_count_cached {α : Type} (sig : List (SigParam α)) (env : ResolveEnv α)
    (m : List (String × α)) (hdkc : env.derive_kwargs = some m) (hne : m ≠ []) :
    ∀ (ps : List String), (resolveList sig env ps m).2 = 0 := by
  intro ps
  induction ps with
  | nil => simp [resolveList]
  | cons p rest ih =>
    obtain ⟨h1, h2⟩ := resolveParam_count_cached sig env m p hdkc hne
    rcases hrp : resolveParam sig env m p with ⟨r, cache2, n⟩
    rw [hrp] at h1 h2
    replace h1 : n = 0 := h1
    replace h2 : cache2 = m := h2
    subst h2
    cases r <;> simp only [resolveList, hrp] <;> rw [h1, ih]

theorem resolveParam_nil_cases {α : Type} (sig : List (SigParam α)) (env : ResolveEnv α)
    (p : String) :
    ((resolveParam sig env [] p).2.2 = 0 ∧ (resolveParam sig env [] p).2.1 = []) ∨
    ((resolveParam sig env [] p).2.2 ≤ 1 ∧
      env.derive_kwargs = some (resolveParam sig env [] p).2.1) := by
  cases hdp : env.directly_passed p with
  | some v => left; simp [resolveParam, hdp]
  | none =>
    cases hctx : env.ctx_argdict p with
    | some v => left; simp [resolveParam, hdp, hctx]
    | none =>
      cases hdk : env.derive_kwargs with
      | none =>
        left
        cases hcd : callableDefaultOf sig p <;>
          simp [resolveParam, deriveStep, hdp, hctx, hdk, hcd]
      | some m =>
        right
        cases hlk : lookupName p m <;> cases hcd : callableDefaultOf sig p <;>
          simp [resolveParam, deriveStep, hdp, hctx, hdk, hcd, hlk]

theorem resolveList_count_nil {α : Type} (sig : List (SigParam α)) (env : ResolveEnv α)
    (m : List (String × α)) (hdkc : env.derive_kwargs = some m) (hne : m ≠ []) :
    ∀ (ps : List String), (resolveList sig env ps []).2 ≤ 1 := by
  intro ps
  induction ps with
  | nil => simp [resolveList]
  | cons p rest ih =>
    rcases hrp : resolveParam sig env [] p with ⟨r, cache2, n⟩
    rcases resolveParam_nil_cases sig env p with ⟨h1, h2⟩ | ⟨h1, h2⟩ <;> rw [hrp] at h1 h2
    · replace h1 : n = 0 := h1
      replace h2 : cache2 = [] := h2
      subst h2
      cases r <;> simp only [resolveList, hrp] <;> rw [h1] <;> simpa using ih
    · replace h1 : n ≤ 1 := h1
      replace h2 : env.derive_kwargs = some cache2 := h2
      rw [hdkc] at h2
      have hcm : cache2 = m := (Option.some.inj h2).symm
      subst hcm
      have htail := resolveList_count_cached sig env cache2 hdkc hne rest
      cases r <;> simp only [resolveList, hrp] <;> rw [htail] <;> simpa using h1

/-- C9 (amended): within one invocation, the derivation callback is
never invoked when absent, and is invoked at most once provided the
mapping it returns is non-empty.  (The memo is per-call by
construction: `resolveAll` starts every call from the empty memo.) -/
theorem c9_derive_kwargs_memoized (α : Type) (sig : List (SigParam α)) (env : ResolveEnv α) :
    (env.derive_kwargs = none → (resolveAll sig env).2 = 0) ∧
    (∀ m, env.derive_kwargs = some m → m ≠ [] → (resolveAll sig env).2 ≤ 1) := by
  constructor
  · intro h
    exact resolveList_count_none sig env h _ []
  · intro m h hne
    exact resolveList_count_nil sig env m h hne _

/-- Counterexample to C9 as stated: when the derivation callback
returns an empty mapping, the falsy-memo test
(`if not cache['derived']`) re-invokes it at every consultation — here
twice in a single call, refuting "invoked at most once per call". -/
theorem c9_counterexample :
    envC9.derive_kwargs = some [] ∧ (resolveAll sigC9 envC9).2 = 2 :=
  ⟨rfl, by decide⟩

/-- Witness for C9: with a non-empty returned mapping the callback is
invoked at most once even though two parameters consult it. -/
theorem c9_witness : (resolveAll sigC9 envC9w).2 ≤ 1 :=
  (c9_derive_kwargs_memoized Nat sigC9 envC9w).2 [("a", 7)] rfl (by decide)

/-! ## Missing-argument error (C5) -/

theorem nodup_name_inj {α : Type} :
    ∀ (sig : List (SigParam α)), (sig.map (fun pr => pr.name)).Nodup →
      ∀ pr1 ∈ sig, ∀ pr2 ∈ sig, pr1.name = pr2.name → pr1 = pr2 := by
  intro sig
  induction sig with
  | nil =>
    intro _ pr1 h1
    cases h1
  | cons a t ih =>
    intro hnd pr1 h1 pr2 h2 hname
    rw [List.map_cons] at hnd
    have hnotin : a.name ∉ t.map (fun pr => pr.name) := (List.nodup_cons.mp hnd).1
    have hndt := (List.nodup_cons.mp hnd).2
    rcases List.mem_cons.mp h1 with rfl | h1t
    · rcases List.mem_cons.mp h2 with rfl | h2t
      · rfl
      · exact absurd (by rw [hname]; exact List.mem_map.mpr ⟨pr2, h2t, rfl⟩) hnotin
    · rcases List.mem_cons.mp h2 with rfl | h2t
      · exact absurd (by rw [← hname]; exact List.mem_map.mpr ⟨pr1, h1t, rfl⟩) hnotin
      · exact ih hndt pr1 h1t pr2 h2t hname

/-- C5: whenever, after the full cascade, parameters without any
declared default remain unresolved, the call raises the typed error
whose message names the callable and joins exactly the missing names in
declaration order; the missing list is precisely the declared-order
filter of the empty-default parameters whose cascade yields nothing, so
it excludes the (directly passed) context parameter and every parameter
that has a declared default. -/
theorem c5_missing_argument_error (α : Type) (sig : List (SigParam α)) (env : ResolveEnv α)
    (fname ctxName : String)
    (hnd : (sig.map (fun pr => pr.name)).Nodup)
    (hctx : (env.directly_passed ctxName).isSome = true) :
    missingOf sig env =
      (sig.filter (fun pr => pr.dflt.isEmptyD && (cascadeSpec sig env pr.name).isNone)).map
        (fun pr => pr.name) ∧
    ctxName ∉ missingOf sig env ∧
    (missingOf sig env ≠ [] →
      resolveOutcome sig env fname = Except.error (missingMsg fname (missingOf sig env))) ∧
    ∀ pr ∈ sig, pr.dflt.isEmptyD = false → pr.name ∉ missingOf sig env := by
  have part1 : missingOf sig env =
      (sig.filter (fun pr => pr.dflt.isEmptyD && (cascadeSpec sig env pr.name).isNone)).map
        (fun pr => pr.name) := by
    have hfc : sig.filter
          (fun pr => !(((resolveAll sig env).1.map (fun x => x.1)).contains pr.name) &&
            pr.dflt.isEmptyD)
        = sig.filter (fun pr => pr.dflt.isEmptyD && (cascadeSpec sig env pr.name).isNone) := by
      apply List.filter_congr
      intro pr hpr
      have hmem : pr.name ∈ sig.map (fun pr2 => pr2.name) := List.mem_map.mpr ⟨pr, hpr, rfl⟩
      have hlk : lookupName pr.name (resolveAll sig env).1 = cascadeSpec sig env pr.name :=
        resolveList_lookup sig env _ [] (Or.inl rfl) hnd pr.name hmem
      rw [contains_keys_eq_isSome_lookupName, hlk]
      cases hcs : cascadeSpec sig env pr.name <;> cases hed : pr.dflt.isEmptyD <;> simp
    simp only [missingOf]
    rw [hfc]
  refine ⟨part1, ?_, ?_, ?_⟩
  · intro hmem
    rw [part1] at hmem
    obtain ⟨pr, hprf, hprname⟩ := List.mem_map.mp hmem
    have hP := (List.mem_filter.mp hprf).2
    have hcs : (cascadeSpec sig env pr.name).isNone = true := (Bool.and_elim_right hP)
    obtain ⟨v, hv⟩ := Option.isSome_iff_exists.mp hctx
    rw [hprname] at hcs
    simp [cascadeSpec, hv] at hcs
  · intro hne
    obtain ⟨a, t, hat⟩ := List.exists_cons_of_ne_nil hne
    simp [resolveOutcome, hat]
  · intro pr hpr hed hmem
    rw [part1] at hmem
    obtain ⟨pr2, hpr2f, hpr2name⟩ := List.mem_map.mp hmem
    have hpr2 := (List.mem_filter.mp hpr2f).1
    have hP := (List.mem_filter.mp hpr2f).2
    have : pr2 = pr := nodup_name_inj sig hnd pr2 hpr2 pr hpr hpr2name
    subst this
    rw [hed] at hP
    simp at hP

/-- Witness for C5: with only the context passed, `a` and `c` (required,
no default) are reported, in declaration order, while `ctx` and the
defaulted `b` are not. -/
theorem c5_witness :
    resolveOutcome sigW5 envW5 "tasks.myfunc" =
      Except.error (missingMsg "tasks.myfunc" ["a", "c"]) ∧
    "ctx" ∉ missingOf sigW5 envW5 := by
  have h := c5_missing_argument_error Nat sigW5 envW5 "tasks.myfunc" "ctx" (by decide) (by decide)
  refine ⟨?_, h.2.1⟩
  have h2 := h.2.2.1 (by decide)
  have h3 : missingOf sigW5 envW5 = ["a", "c"] := by decide
  rw [h3] at h2
  exact h2

/-! ## Staleness-checker lemmas (C2) -/

theorem mem_of_getLast?_eq {β : Type} :
    ∀ (l : List β) (y : β), l.getLast? = some y → y ∈ l := by
  intro l
  induction l with
  | nil =>
    intro y h
    cases h
  | cons a t ih =>
    intro y h
    cases t with
    | nil =>
      rw [List.getLast?_singleton] at h
      rw [← Option.some.inj h]
      exact List.mem_cons_self a []
    | cons b t2 =>
      rw [List.getLast?_cons_cons] at h
      exact List.mem_cons_of_mem _ (ih y h)

theorem getLast?_isSome_of_ne_nil {β : Type} :
    ∀ (l : List β), l ≠ [] → ∃ y, l.getLast? = some y := by
  intro l
  induction l with
  | nil =>
    intro h
    exact absurd rfl h
  | cons a t ih =>
    intro _
    cases t with
    | nil => exact ⟨a, List.getLast?_singleton a⟩
    | cons b t2 =>
      obtain ⟨y, hy⟩ := ih (by simp)
      exact ⟨y, by rw [List.getLast?_cons_cons]; exact hy⟩

theorem sorted_le_getLast? :
    ∀ (l : List (String × Nat)), List.Sorted (fun a b : String × Nat => a.2 ≤ b.2) l →
      ∀ x ∈ l, ∀ y, l.getLast? = some y → x.2 ≤ y.2 := by
  intro l
  induction l with
  | nil =>
    intro _ x hx
    cases hx
  | cons a t ih =>
    intro hs x hx y hy
    cases t with
    | nil =>
      rw [List.getLast?_singleton] at hy
      rcases List.mem_cons.mp hx with rfl | hx2
      · rw [← Option.some.inj hy]
      · cases hx2
    | cons b t2 =>
      rw [List.getLast?_cons_cons] at hy
      have hst := List.Sorted.of_cons hs
      rcases List.mem_cons.mp hx with rfl | hx2
      · exact List.rel_of_sorted_cons hs y (mem_of_getLast?_eq _ y hy)
      · exact ih hst x hx2 y hy

theorem sorted_headD_le (l : List (String × Nat))
    (hs : List.Sorted (fun a b : String × Nat => a.2 ≤ b.2) l) (d : String × Nat) :
    ∀ x ∈ l, (l.headD d).2 ≤ x.2 := by
  cases l with
  | nil =>
    intro x hx
    cases hx
  | cons a t =>
    intro x hx
    rcases List.mem_cons.mp hx with rfl | hx2
    · exact Nat.le_refl _
    · exact List.rel_of_sorted_cons hs x hx2

theorem sortByTimestamps_sorted (fs : String → Option Nat) (l : List String) :
    List.Sorted (fun a b : String × Nat => a.2 ≤ b.2) (sortByTimestamps fs l) :=
  List.sorted_insertionSort _ _

theorem mem_sortByTimestamps (fs : String → Option Nat) (l : List String) (x : String × Nat) :
    x ∈ sortByTimestamps fs l ↔ ∃ p ∈ l, (p, mtOf fs p) = x := by
  rw [sortByTimestamps,
    (List.perm_insertionSort (fun a b : String × Nat => a.2 ≤ b.2)
      (l.map (fun p => (p, mtOf fs p)))).mem_iff]
  exact List.mem_map

theorem sortByTimestamps_ne_nil (fs : String → Option Nat) (l : List String) (hl : l ≠ []) :
    sortByTimestamps fs l ≠ [] := by
  intro h
  have hlen := (List.perm_insertionSort (fun a b : String × Nat => a.2 ≤ b.2)
    (l.map (fun p => (p, mtOf fs p)))).length_eq
  rw [sortByTimestamps] at h
  rw [h, List.length_map] at hlen
  exact hl (List.length_eq_zero.mp hlen.symm)

/-- C2: over non-empty input and output lists whose paths all exist, the
staleness checker reports skippable exactly when every input is
strictly older than every output (equivalently: the youngest input is
strictly older than the oldest output; equal timestamps are not
skippable); and whenever any listed path does not exist it reports not
skippable. -/
theorem c2_timestamp_rules (fs : String → Option Nat) (ins outs : List String) :
    (ins ≠ [] → outs ≠ [] → (∀ p ∈ ins ++ outs, (fs p).isSome = true) →
      ((timestamp_differ fs ins outs).1 = true ↔
        ∀ i ∈ ins, ∀ o ∈ outs, mtOf fs i < mtOf fs o)) ∧
    ((∃ p ∈ ins ++ outs, fs p = none) → (timestamp_differ fs ins outs).1 = false) := by
  constructor
  · intro hin hout hall
    have hfind : (ins ++ outs).find? (fun p => (fs p).isNone) = none := by
      rw [List.find?_eq_none]
      intro x hx
      have hx2 := hall x hx
      cases hfs : fs x
      · rw [hfs] at hx2
        simp at hx2
      · simp [hfs]
    obtain ⟨i0, ins2, rfl⟩ := List.exists_cons_of_ne_nil hin
    obtain ⟨o0, outs2, rfl⟩ := List.exists_cons_of_ne_nil hout
    set so := sortByTimestamps fs (o0 :: outs2) with hso_def
    set si := sortByTimestamps fs (i0 :: ins2) with hsi_def
    have hso_ne : so ≠ [] := sortByTimestamps_ne_nil fs _ (by simp)
    have hsi_ne : si ≠ [] := sortByTimestamps_ne_nil fs _ (by simp)
    obtain ⟨a, t, hat⟩ := List.exists_cons_of_ne_nil hso_ne
    obtain ⟨y, hy⟩ := getLast?_isSome_of_ne_nil si hsi_ne
    have hold : so.headD ("", 0) = a := by rw [hat]; rfl
    have hyoung : si.getLastD ("", 0) = y := by
      rw [List.getLastD_eq_getLast?, hy]
      rfl
    have ha_min : ∀ x ∈ so, a.2 ≤ x.2 := by
      intro x hx
      rw [← hold]
      exact sorted_headD_le so (sortByTimestamps_sorted fs _) ("", 0) x hx
    have hy_max : ∀ x ∈ si, x.2 ≤ y.2 :=
      fun x hx => sorted_le_getLast? si (sortByTimestamps_sorted fs _) x hx y hy
    have ha_mem : a ∈ so := by rw [hat]; exact List.mem_cons_self a t
    have hy_mem : y ∈ si := mem_of_getLast?_eq si y hy
    simp only [timestamp_differ, List.isEmpty_cons, hfind, hyoung, hold]
    constructor
    · intro hdec i hi o ho
      have hlt : y.2 < a.2 := of_decide_eq_true hdec
      have himem : (i, mtOf fs i) ∈ si := (mem_sortByTimestamps fs _ _).mpr ⟨i, hi, rfl⟩
      have homem : (o, mtOf fs o) ∈ so := (mem_sortByTimestamps fs _ _).mpr ⟨o, ho, rfl⟩
      exact Nat.lt_of_le_of_lt (hy_max _ himem) (Nat.lt_of_lt_of_le hlt (ha_min _ homem))
    · intro hallio
      apply decide_eq_true
      obtain ⟨iy, hiy, hiyeq⟩ := (mem_sortByTimestamps fs _ _).mp hy_mem
      obtain ⟨oa, hoa, hoaeq⟩ := (mem_sortByTimestamps fs _ _).mp ha_mem
      rw [← hiyeq, ← hoaeq]
      exact hallio iy hiy oa hoa
  · rintro ⟨p, hp, hfs⟩
    cases outs with
    | nil => simp [timestamp_differ]
    | cons o0 outs2 =>
      have hfind : ((ins ++ (o0 :: outs2)).find? (fun q => (fs q).isNone)).isSome = true := by
        rw [List.find?_isSome]
        exact ⟨p, hp, by simp [hfs]⟩
      obtain ⟨q, hq⟩ := Option.isSome_iff_exists.mp hfind
      simp [timestamp_differ, hq]

/-- Witness for C2: strictly-older input is skippable; a missing path is
not; equal timestamps are not. -/
theorem c2_witness :
    (timestamp_differ fsW2 ["in.txt"] ["out.txt"]).1 = true ∧
    (timestamp_differ fsW2 ["in.txt"] ["gone.txt"]).1 = false ∧
    (timestamp_differ fsW2 ["in.txt"] ["in.txt"]).1 = false := by
  refine ⟨?_, ?_, ?_⟩
  · exact ((c2_timestamp_rules fsW2 ["in.txt"] ["out.txt"]).1 (by decide) (by decide)
      (by decide)).mpr (by decide)
  · exact (c2_timestamp_rules fsW2 ["in.txt"] ["gone.txt"]).2 ⟨"gone.txt", by decide, by decide⟩
  · have h := (c2_timestamp_rules fsW2 ["in.txt"] ["in.txt"]).1 (by decide) (by decide)
      (by decide)
    have hne : ¬ ∀ i ∈ ["in.txt"], ∀ o ∈ ["in.txt"], mtOf fsW2 i < mtOf fsW2 o := by decide
    cases hb : (timestamp_differ fsW2 ["in.txt"] ["in.txt"]).1
    · rfl
    · exact absurd (h.mp hb) hne

/-! ## Flag-checker lemmas (C4) -/

theorem canSkipGo_spec (fs : String → Option Nat) (markers : String → Option String)
    (care : String) :
    ∀ (outs : List String) (failed : Option String),
      (canSkipGo fs markers care outs failed).skippable = true ↔
        ((∀ p ∈ outs, (fs p).isSome = true) ∧
         (∀ p ∈ outs, ∀ s, markers p = some s → s = care) ∧ failed = none) := by
  intro outs
  induction outs with
  | nil =>
    intro failed
    simp [canSkipGo, Option.isNone_iff_eq_none]
  | cons p rest ih =>
    intro failed
    cases hfs : fs p with
    | none => simp [canSkipGo, hfs]
    | some t =>
      cases hm : markers p with
      | none =>
        rw [canSkipGo]
        simp only [hfs, hm, Option.isNone_some, Bool.false_eq_true, if_false]
        rw [ih failed]
        constructor
        · rintro ⟨h1, h2, h3⟩
          refine ⟨?_, ?_, h3⟩
          · intro q hq
            rcases List.mem_cons.mp hq with rfl | hq2
            · simp [hfs]
            · exact h1 q hq2
          · intro q hq s hs
            rcases List.mem_cons.mp hq with rfl | hq2
            · rw [hm] at hs
              cases hs
            · exact h2 q hq2 s hs
        · rintro ⟨h1, h2, h3⟩
          exact ⟨fun q hq => h1 q (List.mem_cons_of_mem _ hq),
            fun q hq s hs => h2 q (List.mem_cons_of_mem _ hq) s hs, h3⟩
      | some s =>
        by_cases hsc : s = care
        · subst hsc
          rw [canSkipGo]
          simp only [hfs, hm, Option.isNone_some, Bool.false_eq_true, if_false,
            eq_self_iff_true, if_true]
          rw [ih failed]
          constructor
          · rintro ⟨h1, h2, h3⟩
            refine ⟨?_, ?_, h3⟩
            · intro q hq
              rcases List.mem_cons.mp hq with rfl | hq2
              · simp [hfs]
              · exact h1 q hq2
            · intro q hq s2 hs2
              rcases List.mem_cons.mp hq with rfl | hq2
              · rw [hm] at hs2
                exact (Option.some.inj hs2).symm
              · exact h2 q hq2 s2 hs2
          · rintro ⟨h1, h2, h3⟩
            exact ⟨fun q hq => h1 q (List.mem_cons_of_mem _ hq),
              fun q hq s2 hs2 => h2 q (List.mem_cons_of_mem _ hq) s2 hs2, h3⟩
        · rw [canSkipGo]
          simp only [hfs, hm, Option.isNone_some, Bool.false_eq_true, if_false, if_neg hsc]
          rw [ih (some p)]
          constructor
          · rintro ⟨_, _, h3⟩
            cases h3
          · rintro ⟨_, h2, _⟩
            exact absurd (h2 p (List.mem_cons_self p rest) s hm) hsc

/-- C4 (amended): with at least one behavior flag, the flag checker
reports skippable exactly when every output path exists and every
PRESENT marker agrees with the current fingerprint; an absent marker
does not make the call flag-stale. -/
theorem c4_flag_checker (fs : String → Option Nat) (markers : String → Option String)
    (care : String) (flags : List (String × String)) (outs : List String)
    (hf : flags ≠ []) :
    (can_skip fs markers care flags outs).skippable = true ↔
      ((∀ p ∈ outs, (fs p).isSome = true) ∧
       (∀ p ∈ outs, ∀ s, markers p = some s → s = care)) := by
  obtain ⟨f0, fl, rfl⟩ := List.exists_cons_of_ne_nil hf
  rw [can_skip]
  simp only [List.isEmpty_cons, Bool.false_eq_true, if_false]
  rw [canSkipGo_spec]
  simp

/-- Counterexample to C4 as stated: the only output exists but its
marker file is absent, yet the checker reports skippable — an absent
marker is not treated as flag-stale. -/
theorem c4_counterexample :
    (can_skip fs4 mk4 "fp" [("f", "1")] ["o"]).skippable = true ∧
    mk4 "o" = none ∧ (fs4 "o").isSome = true :=
  ⟨by decide, rfl, by decide⟩

/-- Witness for C4: existing output with an agreeing marker is
skippable. -/
theorem c4_witness : (can_skip fs4 mk4w "fp" [("f", "1")] ["o"]).skippable = true := by
  refine (c4_flag_checker fs4 mk4w "fp" [("f", "1")] ["o"] (by decide)).mpr ⟨by decide, ?_⟩
  intro p hp s hs
  have hpo : p = "o" := by
    rcases List.mem_cons.mp hp with h | h
    · exact h
    · cases h
  subst hpo
  have : some "fp" = some s := hs
  exact (Option.some.inj this).symm

/-! ## Orchestrator theorems (C3, C6, C7) -/

/-- Counterexample to C3 as stated: a call with zero declared output
parameters (hence an empty coerced output-path list) is nevertheless
skipped — the orchestrator appended the pickled-result cache path `lr`
as an output, the flag check passes (no flags) and the cache file
exists, so the cached 42 is returned and the body is NOT executed. -/
theorem c3_counterexample :
    w3.outputPaths = [] ∧ magicSkippableCall w3 false false = (Outcome.value 42, false) :=
  ⟨rfl, by decide⟩

/-- C3 (amended): the standalone timestamp checker with an empty
output list never reports skippable; but the orchestrator always
checks the extended list `outputPaths ++ [lastResultPath]`, which is
never empty, so a call with zero declared output parameters can still
be skipped via the cached-return-value file. -/
theorem c3_no_declared_outputs :
    (∀ (fs : String → Option Nat) (ins : List String), (timestamp_differ fs ins []).1 = false) ∧
    (∀ (ρ : Type) (w : World ρ), fullOutputs w ≠ []) := by
  constructor
  · intro fs ins
    rfl
  · intro ρ w
    simp [fullOutputs]

/-- C6: when the combined verdict is skippable, force-run and clean are
not requested, and loading the pickled return value fails, the load
error is not propagated: the wrapped function body is executed and (the
save succeeding) its fresh return value is returned. -/
theorem c6_load_failure_recovered (ρ : Type) (w : World ρ) (msg : String)
    (hload : w.loadResult = Except.error msg)
    (hdump : w.dumpResult = Except.ok ())
    (hskip : (combinedVerdict w).skippable = true) :
    magicSkippableCall w false false = (Outcome.value w.runResult, true) := by
  simp [magicSkippableCall, skipOrRun, runAndPersist, after_run_save, hskip, hload, hdump]

/-- Witness for C6. -/
theorem c6_witness : magicSkippableCall wC6 false false = (Outcome.value 7, true) :=
  c6_load_failure_recovered Nat wC6 "corrupt pickle" rfl rfl (by decide)

theorem runAndPersist_snd {ρ : Type} (w : World ρ) : (runAndPersist w).2 = true := by
  rw [runAndPersist]
  cases after_run_save w.dumpResult <;> rfl

theorem runAndPersist_raised {ρ : Type} (w : World ρ) (e : PyError)
    (he : (runAndPersist w).1 = Outcome.raised e) :
    ∃ m, e = PyError.saveReturnvalueError m ∧ w.dumpResult = Except.error m := by
  rw [runAndPersist] at he
  cases hd : w.dumpResult with
  | ok u =>
    rw [hd] at he
    exact Outcome.noConfusion (show Outcome.value w.runResult = Outcome.raised e from he)
  | error m =>
    rw [hd] at he
    have h2 : Outcome.raised (PyError.saveReturnvalueError m) = Outcome.raised e := he
    exact ⟨m, (Outcome.raised.inj h2).symm, rfl⟩

theorem skipOrRun_raised {ρ : Type} (w : World ρ) (force : Bool) (e : PyError)
    (he : (skipOrRun w force).1 = Outcome.raised e) :
    (∃ m, e = PyError.saveReturnvalueError m ∧ w.dumpResult = Except.error m) ∧
    (skipOrRun w force).2 = true := by
  rw [skipOrRun] at he
  by_cases hc : ((combinedVerdict w).skippable && !force) = true
  · rw [if_pos hc] at he
    cases hl : w.loadResult with
    | ok v =>
      rw [hl] at he
      exact Outcome.noConfusion (show Outcome.value v = Outcome.raised e from he)
    | error msg =>
      rw [hl] at he
      refine ⟨runAndPersist_raised w e he, ?_⟩
      rw [skipOrRun, if_pos hc, hl]
      exact runAndPersist_snd w
  · rw [if_neg hc] at he
    refine ⟨runAndPersist_raised w e he, ?_⟩
    rw [skipOrRun, if_neg hc]
    exact runAndPersist_snd w

/-- C7: whenever a wrapped call raises, the raised error is the
dedicated `SaveReturnvalueError` carrying the pickling failure (the
error type is distinct from the generic pickling error), and it is
raised only after the wrapped function body has already executed. -/
theorem c7_save_error_semantics (ρ : Type) (w : World ρ) (force clean : Bool) :
    (∀ e, (magicSkippableCall w force clean).1 = Outcome.raised e →
        (∃ m, e = PyError.saveReturnvalueError m ∧ w.dumpResult = Except.error m) ∧
        (magicSkippableCall w force clean).2 = true) ∧
    (∀ m1 m2, PyError.saveReturnvalueError m1 ≠ PyError.pickleError m2) := by
  constructor
  · intro e he
    rw [magicSkippableCall] at he ⊢
    cases clean with
    | false => exact skipOrRun_raised w force e he
    | true =>
      cases force with
      | false =>
        exact Outcome.noConfusion
          (show Outcome.cleaned w.outputPaths.length = Outcome.raised e from he)
      | true => exact skipOrRun_raised (cleanWorld w) true e he
  · intro m1 m2 h
    exact PyError.noConfusion h

/-- Witness for C7: a non-picklable return value raises the dedicated
error after the body has run. -/
theorem c7_witness :
    (∃ m, PyError.saveReturnvalueError "cannot pickle lambda" =
        PyError.saveReturnvalueError m ∧ wC7.dumpResult = Except.error m) ∧
    (magicSkippableCall wC7 true false).2 = true :=
  (c7_save_error_semantics Nat wC7 true false).1
    (PyError.saveReturnvalueError "cannot pickle lambda") (by decide)

/-! ## Signature rewrite (C8) -/

/-- Counterexample to C8 as stated: a callable with no output-classified
parameter still exposes both orchestration flags — the `skippable`
decorator adds them unconditionally. -/
theorem c8_counterexample :
    outputParams psC8 = [] ∧
    "_clean" ∈ skippableParams psC8 ∧ "_force_run" ∈ skippableParams psC8 :=
  ⟨by decide, by decide, by decide⟩

/-- C8 (amended): the two boolean orchestration options are always
added to the wrapped callable's exposed signature, for every parameter
list, regardless of whether any parameter is output-classified. -/
theorem c8_flags_always_added :
    ∀ (ps : List PyParam),
      "_clean" ∈ skippableParams ps ∧ "_force_run" ∈ skippableParams ps := by
  intro ps
  constructor <;> simp [skippableParams]

/-! ## Persistent-hash permutation invariance (C10) -/

/-- C10: the persistent cache key is the arithmetic sum of the
independent element hashes of the call identity, hence invariant under
any permutation of the identity elements; two calls with equal
identity-element multisets (and the same qualified name) therefore map
to the same pickled-return-value path. -/
theorem c10_persistent_hash_permutation (h : String → Nat) (ci1 ci2 : CallInfoId)
    (hperm : (identify ci1).Perm (identify ci2)) (hname : ci1.name = ci2.name) :
    persistent_hash h ci1 = persistent_hash h ci2 ∧
    lastResultPathOf h ci1 = lastResultPathOf h ci2 := by
  have hsum : persistent_hash h ci1 = persistent_hash h ci2 := (hperm.map h).sum_eq
  refine ⟨hsum, ?_⟩
  rw [lastResultPathOf, lastResultPathOf, hsum, hname]

/-- Witness for C10: two distinct calls that swap the input and output
roles of the same two path strings share the cache key and hence the
pickled-return-value path. -/
theorem c10_witness :
    ciA ≠ ciB ∧
    persistent_hash String.length ciA = persistent_hash String.length ciB ∧
    lastResultPathOf String.length ciA = lastResultPathOf String.length ciB :=
  ⟨by decide,
    c10_persistent_hash_permutation String.length ciA ciB (by decide) rfl⟩

end MagicInvoke
